import Mathlib

/-
  Verification of the chunked downloader in src/utils/download.rs
  (crate celestial-bootstrap-next).

  The embedding models, faithfully to the Rust source:
  - the chunk planner of download_parallelly (lines 69-99): effective
    concurrency halving, single_chunk_max_size = total_size / concurrency,
    and the range-building loop.  Ranges are recorded as (start, end) pairs
    exactly as the fetchers use them in the header
    Range: bytes=start-end, i.e. closed-inclusive on both sides; these are
    also literally the .start and .end fields of the Rust Range values the
    loop pushes.  Rust usize arithmetic is modelled with checked semantics:
    division by zero always panics in Rust, and the subtraction
    (counter + 1) * single_chunk_max_size - 1 panics on underflow in a
    debug build (it wraps in release, which still yields no error value);
    a panic is surfaced as an explicit PlanPanic value.
  - the per-chunk fetch retry loop (lines 112-147): the Rust iterator
    1..max_retries is exclusive on the right, so the body runs
    max_retries - 1 times.
  - the reassembly phase (lines 150-184): drain results, sort by chunk
    index, stream each chunk into the destination while feeding the
    running hasher, delete each temporary file, then verify the digest.
    The incremental hasher is an external collaborator; it is modelled by
    an arbitrary digest function on the fed byte list.
  - download_single_thread (lines 187-247): the body of the retry loop is
    a plain Rust block, not an async block or closure, so every question
    mark operator and the explicit return inside it exits
    download_single_thread itself; each attempt is therefore modelled as a
    value that either completes the block or carries the DownloadError
    with which the whole function returns at once.
-/

namespace Celestial

/-- Mirror of utils::hashing::Hash: the external hash collaborator, an
expected digest carried as a hex string (its value accessor). -/
structure Hash where
  value : String
deriving DecidableEq

/-- Mirror of utils::hashing::HashingError. -/
inductive HashingError
  | hashNotMatch (expected_hash : Hash) (actual_hash : String)
deriving DecidableEq

/-- Mirror of DownloadError in download.rs (lines 22-41). -/
inductive DownloadError
  | hashing (e : HashingError)
  | unarchive
  | http
  | io
  | maxRetriesExceeded (url : String) (max_retries : Nat)
  | failedCreateParentFolders (path : String)
deriving DecidableEq

/-- A usize panic inside the chunk-planning arithmetic, plus a fuel marker
for the loop embedding (proved unreachable at the fuel plan supplies). -/
inductive PlanPanic
  | divByZero
  | usizeUnderflow
  | outOfFuel
deriving DecidableEq

/-- The effective concurrency of download_parallelly (lines 69-73): halve
the requested concurrency once when it is at least total_size. -/
def effectiveConcurrency (total_size concurrency : Nat) : Nat :=
  if concurrency ≥ total_size then concurrency / 2 else concurrency

/-- The chunk-splitting loop of download_parallelly (lines 77-99).
Each iteration computes chunk_start = counter * single_chunk_max_size and
a tentative chunk_end = (counter + 1) * single_chunk_max_size - 1; when
total_size does not exceed the tentative end the end is clamped to
total_size, the chunk is pushed and the loop breaks.  The subtraction is
usize: when (counter + 1) * single_chunk_max_size = 0 it underflows, which
is modelled as the panic value usizeUnderflow.  The fuel argument only
makes the recursion structural; plan passes enough for the loop to finish. -/
def planLoop (total_size scms : Nat) : Nat → Nat → Except PlanPanic (List (Nat × Nat))
  | 0, _ => .error .outOfFuel
  | fuel + 1, counter =>
      let chunk_start := counter * scms
      if (counter + 1) * scms = 0 then
        .error .usizeUnderflow
      else
        let tentative := (counter + 1) * scms - 1
        let chunk_end := if total_size > tentative then tentative else total_size
        if chunk_end = total_size then
          .ok [(chunk_start, chunk_end)]
        else
          match planLoop total_size scms fuel (counter + 1) with
          | .ok rest => .ok ((chunk_start, chunk_end) :: rest)
          | .error e => .error e

/-- The chunk plan built by download_parallelly (lines 69-99) for a known
total_size on the parallel path: effective concurrency, then
single_chunk_max_size = total_size / concurrency (usize division, which
panics when the divisor is zero, surfaced as divByZero), then the loop. -/
def plan (total_size concurrency : Nat) : Except PlanPanic (List (Nat × Nat)) :=
  let concurrency := effectiveConcurrency total_size concurrency
  if concurrency = 0 then .error .divByZero
  else planLoop total_size (total_size / concurrency) (total_size + 2) 0

/-- One spawned chunk fetcher (lines 112-147): the loop
for _retry_count in 1..max_retries runs over 1, 2, ..., max_retries - 1;
attemptOk k tells whether attempt number k succeeds (downloads the chunk
and sends it on the channel).  Returns (attempts actually made, whether a
completion was sent). -/
def fetchLoop (attemptOk : Nat → Bool) : List Nat → Nat × Bool
  | [] => (0, false)
  | k :: rest =>
      if attemptOk k then (1, true)
      else
        let r := fetchLoop attemptOk rest
        (r.1 + 1, r.2)

/-- Attempt accounting for one chunk fetcher task: the Rust range
1..max_retries is right-exclusive, so the retry indices are
List.range' 1 (max_retries - 1). -/
def chunkFetch (attemptOk : Nat → Bool) (max_retries : Nat) : Nat × Bool :=
  fetchLoop attemptOk (List.range' 1 (max_retries - 1))

/-- A completed chunk as sent on the mpsc channel (line 136): the chunk
index, the downloaded bytes of its temporary file, and an identifier for
the temporary path. -/
structure CompletedTask where
  chunk_num : Nat
  bytes : List Nat
  temp_path : Nat
deriving DecidableEq

/-- A file touched by the reassembly loop: the destination, or the
temporary file of a chunk. -/
inductive FileId
  | dest
  | temp (path : Nat)
deriving DecidableEq

/-- Observable side effects of the reassembly loop (lines 163-170): a
chunk written into the destination, or a file removed. -/
inductive JoinEvent
  | write (chunk_num : Nat) (bytes : List Nat)
  | removeFile (f : FileId)
deriving DecidableEq

/-- The comparator of completed_tasks.sort_by (line 158): compare chunk
indices. -/
def taskLe (a b : CompletedTask) : Prop :=
  a.chunk_num ≤ b.chunk_num

instance : DecidableRel taskLe :=
  fun a b => Nat.decLe a.chunk_num b.chunk_num

instance : IsTotal CompletedTask taskLe :=
  ⟨fun a b => Nat.le_total a.chunk_num b.chunk_num⟩

instance : IsTrans CompletedTask taskLe :=
  ⟨fun _ _ _ => Nat.le_trans⟩

/-- The sort of line 158: completed tasks ordered by chunk index (a
comparison sort; with the pairwise-distinct indices produced by the
planner the result does not depend on the algorithm or its stability). -/
def sortCompleted (tasks : List CompletedTask) : List CompletedTask :=
  List.insertionSort taskLe tasks

/-- State threaded through the join loop: destination file contents,
bytes fed to the running hasher, and the emitted events. -/
structure JoinState where
  dest : List Nat
  hashed : List Nat
  events : List JoinEvent
deriving DecidableEq

/-- The join loop of lines 163-170: for each completed task in order,
stream_write_and_calculate_hash appends its bytes to the destination and
feeds them to the hasher when one is present, then the temporary file is
removed.  hasHasher mirrors expected_file_hash.is_some (line 160). -/
def joinChunks (hasHasher : Bool) : JoinState → List CompletedTask → JoinState
  | st, [] => st
  | st, tk :: rest =>
      joinChunks hasHasher
        { dest := st.dest ++ tk.bytes
          hashed := st.hashed ++ (if hasHasher then tk.bytes else [])
          events := st.events ++ [.write tk.chunk_num tk.bytes, .removeFile (.temp tk.temp_path)] }
        rest

/-- The hash verification of lines 172-182 (and, identically structured,
lines 212-223 of download_single_thread): when an expected hash was
supplied, finalize the hasher over the fed bytes (digestFn models
hex::encode of the collaborator digest) and compare with the expected
value; a difference yields HashNotMatch carrying the expected hash and
the actual digest. -/
def verifyHash (digestFn : List Nat → String) (expected : Option Hash)
    (hashed : List Nat) : Option DownloadError :=
  match expected with
  | none => none
  | some h =>
      let actual := digestFn hashed
      if actual ≠ h.value then
        some (.hashing (.hashNotMatch h actual))
      else
        none

/-- The tail of download_parallelly (lines 150-185) after the channel has
closed: the received completions (in arrival order) are sorted by index,
joined into the destination while hashing, and the digest is verified.
Returns the result together with the final join state; note that no code
path removes the destination file. -/
def parallelFinish (digestFn : List Nat → String) (expected : Option Hash)
    (completions : List CompletedTask) : Except DownloadError Unit × JoinState :=
  let sorted := sortCompleted completions
  let st := joinChunks expected.isSome ⟨[], [], []⟩ sorted
  match verifyHash digestFn expected st.hashed with
  | some e => (.error e, st)
  | none => (.ok (), st)

/-- The chunk indices written into the destination, in event order. -/
def writtenIndices (st : JoinState) : List Nat :=
  st.events.filterMap fun e =>
    match e with
    | .write chunk_num _ => some chunk_num
    | _ => none

/-- The dispatch decision of download_parallelly (lines 52-67). -/
inductive DispatchPath
  | singleThread
  | parallel (ranges : List (Nat × Nat))
deriving DecidableEq

/-- Number of fetcher tasks spawned with tokio::spawn on each path: the
single-stream fallback runs inline on the calling task and spawns none;
the parallel path spawns one task per planned range (line 112). -/
def spawnedFetchTasks : DispatchPath → Nat
  | .singleThread => 0
  | .parallel ranges => ranges.length

/-- The facade decision procedure of download_parallelly (lines 52-67):
total_size is the parsed CONTENT_LENGTH of the HEAD probe (None when the
header is missing or unparseable, mirroring the Option built on lines
53-57).  Unknown size or size at most 5120 dispatches to the
single-stream path; otherwise the plan is built and one fetcher per range
is spawned. -/
def download_parallelly_dispatch (total_size : Option Nat) (concurrency : Nat) :
    Except PlanPanic DispatchPath :=
  match total_size with
  | none => .ok .singleThread
  | some ts =>
      if ts ≤ 5120 then .ok .singleThread
      else
        match plan ts concurrency with
        | .ok ranges => .ok (.parallel ranges)
        | .error e => .error e

/-- One attempt of download_single_thread (the block on lines 196-225):
ok means the GET streamed fully and the optional hash check passed, so
the block produced Ok and the function returns Ok; error e means some
question-mark operator or the explicit return inside the block fired, and
because the block is a plain block (not an async block or a closure)
these exit download_single_thread itself with e. -/
def singleLoop (url : String) (max_retries : Nat)
    (attempt : Nat → Except DownloadError Unit) :
    List Nat → Except DownloadError Unit
  | [] => .error (.maxRetriesExceeded url max_retries)
  | retry_count :: _rest =>
      match attempt retry_count with
      | .error e => .error e
      | .ok _ => .ok ()

/-- download_single_thread (lines 187-247): the loop runs over
1..=max_retries, i.e. List.range' 1 max_retries; once every index is
consumed the function returns MaxRetriesExceeded with the URL and the
configured limit.  Because all error paths inside the loop body exit the
function directly (see singleLoop), the retry branch that logs and
re-enters the loop is unreachable. -/
def download_single_thread (attempt : Nat → Except DownloadError Unit)
    (url : String) (max_retries : Nat) : Except DownloadError Unit :=
  singleLoop url max_retries attempt (List.range' 1 max_retries)

/-- Structure of the range-building loop: starting from any counter with
counter * scms at most total_size and enough fuel, the loop succeeds and
returns a nonempty list of closed-inclusive ranges that starts at
counter * scms, is contiguous in index order, is pairwise disjoint, and
covers every byte position from counter * scms to total_size exactly
once (total_size included: the clamped last range ends at total_size,
one past the final byte index total_size - 1). -/
lemma planLoop_ok (total_size scms : Nat) (hs : 1 ≤ scms) :
    ∀ fuel counter, counter * scms ≤ total_size → total_size - counter * scms < fuel →
    ∃ L, planLoop total_size scms fuel counter = .ok L ∧
      L ≠ [] ∧
      L.head?.map Prod.fst = some (counter * scms) ∧
      (∀ r ∈ L, counter * scms ≤ r.1 ∧ r.1 ≤ r.2 ∧ r.2 ≤ total_size) ∧
      List.Chain' (fun r r2 => r2.1 = r.2 + 1) L ∧
      List.Pairwise (fun r r2 => r.2 < r2.1) L ∧
      (∀ b : Nat, L.countP (fun r => decide (r.1 ≤ b ∧ b ≤ r.2)) =
        if counter * scms ≤ b ∧ b ≤ total_size then 1 else 0) := by
  intro fuel
  induction fuel with
  | zero =>
      intro counter h1 h2
      exact absurd h2 (Nat.not_lt_zero _)
  | succ fuel ih =>
      intro counter h1 h2
      have hmul : (counter + 1) * scms = counter * scms + scms := by ring
      have hne : (counter + 1) * scms ≠ 0 := by omega
      by_cases hcl : total_size > (counter + 1) * scms - 1
      · -- the loop continues: the tentative end is strictly below total_size
        have hle : (counter + 1) * scms ≤ total_size := by omega
        obtain ⟨rest, hrest, hrne, hhead, hbounds, hchain, hpair, hcount⟩ :=
          ih (counter + 1) hle (by omega)
        refine ⟨(counter * scms, (counter + 1) * scms - 1) :: rest, ?_, ?_, ?_, ?_, ?_, ?_, ?_⟩
        · simp only [planLoop]
          rw [if_neg hne, if_pos hcl,
            if_neg (by omega : ¬((counter + 1) * scms - 1 = total_size)), hrest]
        · simp
        · simp
        · intro r hr
          rcases List.mem_cons.mp hr with h | h
          · subst h; exact ⟨Nat.le_refl _, by omega, by omega⟩
          · obtain ⟨b1, b2, b3⟩ := hbounds r h
            exact ⟨by omega, b2, b3⟩
        · refine List.chain'_cons'.mpr ⟨?_, hchain⟩
          intro y hy
          rw [Option.mem_def] at hy
          rw [hy] at hhead
          simp only [Option.map_some'] at hhead
          have : y.1 = (counter + 1) * scms := Option.some.inj hhead
          simp only []
          omega
        · refine List.pairwise_cons.mpr ⟨?_, hpair⟩
          intro r hr
          have := (hbounds r hr).1
          simp only []
          omega
        · intro b
          rw [List.countP_cons, hcount b]
          simp only [decide_eq_true_eq]
          split_ifs <;> omega
      · -- EOF: the end is clamped to total_size and the loop breaks
        refine ⟨[(counter * scms, total_size)], ?_, ?_, ?_, ?_, ?_, ?_, ?_⟩
        · simp only [planLoop]
          rw [if_neg hne, if_neg hcl, if_pos rfl]
        · simp
        · simp
        · intro r hr
          rcases List.mem_cons.mp hr with h | h
          · subst h; exact ⟨Nat.le_refl _, h1, Nat.le_refl _⟩
          · simp at h
        · simp
        · simp
        · intro b
          simp only [List.countP_cons, List.countP_nil, decide_eq_true_eq]
          split_ifs <;> omega

/-- Structure of any successfully built plan: ranges start at 0, are
contiguous and pairwise disjoint in index order, and cover every byte
position from 0 to total_size (inclusive) exactly once. -/
lemma plan_ok_props (total_size concurrency : Nat) (ranges : List (Nat × Nat))
    (h : plan total_size concurrency = .ok ranges) :
    ranges ≠ [] ∧
    ranges.head?.map Prod.fst = some 0 ∧
    (∀ r ∈ ranges, r.1 ≤ r.2 ∧ r.2 ≤ total_size) ∧
    List.Chain' (fun r r2 => r2.1 = r.2 + 1) ranges ∧
    List.Pairwise (fun r r2 => r.2 < r2.1) ranges ∧
    (∀ b : Nat, ranges.countP (fun r => decide (r.1 ≤ b ∧ b ≤ r.2)) =
      if b ≤ total_size then 1 else 0) := by
  simp only [plan] at h
  by_cases h0 : effectiveConcurrency total_size concurrency = 0
  · rw [if_pos h0] at h
    exact absurd h (by simp)
  · rw [if_neg h0] at h
    by_cases hs : total_size / effectiveConcurrency total_size concurrency = 0
    · rw [hs] at h
      have hz : planLoop total_size 0 (total_size + 2) 0 = .error .usizeUnderflow := rfl
      rw [hz] at h
      exact absurd h (by simp)
    · have hs1 : 1 ≤ total_size / effectiveConcurrency total_size concurrency :=
        Nat.one_le_iff_ne_zero.mpr hs
      obtain ⟨L, hL, hne, hhead, hbounds, hchain, hpair, hcount⟩ :=
        planLoop_ok total_size _ hs1 (total_size + 2) 0 (by simp) (by omega)
      rw [hL] at h
      have heq : L = ranges := by injection h
      subst heq
      refine ⟨hne, by simpa using hhead,
        fun r hr => ⟨(hbounds r hr).2.1, (hbounds r hr).2.2⟩, hchain, hpair, ?_⟩
      intro b
      simpa using hcount b

/-- C1 (amended).  For every total_size above 5120 and every concurrency
on which the planner completes without panicking, the produced ranges,
closed-inclusive as the fetchers request them, are pairwise disjoint,
contiguous, ordered by index, and their union covers every byte position
from 0 to total_size inclusive exactly once; the covered interval is the
closed one ending at total_size, one position more than the half-open
interval the claim states, and the panicking inputs (see claim10) are
excluded. -/
theorem claim1_plan_ranges (total_size concurrency : Nat) (ranges : List (Nat × Nat))
    (_hbig : 5120 < total_size) (h : plan total_size concurrency = .ok ranges) :
    (∀ r ∈ ranges, r.1 ≤ r.2) ∧
    List.Chain' (fun r r2 => r2.1 = r.2 + 1) ranges ∧
    List.Pairwise (fun r r2 => r.2 < r2.1) ranges ∧
    (∀ b : Nat, ranges.countP (fun r => decide (r.1 ≤ b ∧ b ≤ r.2)) =
      if b ≤ total_size then 1 else 0) := by
  obtain ⟨_, _, hbounds, hchain, hpair, hcount⟩ :=
    plan_ok_props total_size concurrency ranges h
  exact ⟨fun r hr => (hbounds r hr).1, hchain, hpair, hcount⟩

/-- Witness for claim1_plan_ranges at total_size 5121, concurrency 1. -/
theorem claim1_plan_ranges_witness :
    (∀ r ∈ ([(0, 5120), (5121, 5121)] : List (Nat × Nat)), r.1 ≤ r.2) ∧
    List.Chain' (fun r r2 => r2.1 = r.2 + 1) ([(0, 5120), (5121, 5121)] : List (Nat × Nat)) ∧
    List.Pairwise (fun r r2 => r.2 < r2.1) ([(0, 5120), (5121, 5121)] : List (Nat × Nat)) ∧
    (∀ b : Nat, List.countP (fun r => decide (r.1 ≤ b ∧ b ≤ r.2))
        ([(0, 5120), (5121, 5121)] : List (Nat × Nat)) = if b ≤ 5121 then 1 else 0) :=
  claim1_plan_ranges 5121 1 [(0, 5120), (5121, 5121)] (by decide) rfl

/-- C1, counterexample.  The claim fails as stated: the planner panics for
concurrency 0 rather than producing a plan, and at total_size 5121 with
concurrency 1 the produced ranges, read closed-inclusively as the fetchers
send them in the Range header, cover the byte position 5121 = total_size,
which lies outside the half-open interval from 0 to total_size; so the
union is the closed interval up to total_size, not that half-open one. -/
theorem claim1_counterexample :
    plan 5121 0 = .error .divByZero ∧
    plan 5121 1 = .ok [(0, 5120), (5121, 5121)] ∧
    List.countP (fun r => decide (r.1 ≤ 5121 ∧ 5121 ≤ r.2))
      ([(0, 5120), (5121, 5121)] : List (Nat × Nat)) = 1 :=
  ⟨rfl, rfl, by decide⟩

/-- C2 (code bug).  A fetcher whose every attempt fails makes its
attempts (two of them for max_retries = 3, see claim4) and never sends a
completion; the reassembler then receives fewer completions than the plan
has ranges and, when no expected hash was supplied, still returns Ok over
the truncated destination.  Here the plan for total_size 100000 and
concurrency 4 has five ranges, chunk 2 is lost, yet the parallel path
finishes with Ok and a destination holding only the four delivered
chunks. -/
theorem claim2_silent_loss :
    chunkFetch (fun _ => false) 3 = (2, false) ∧
    (plan 100000 4).map List.length = .ok 5 ∧
    (parallelFinish (fun _ => "x") none
        [⟨0, [0], 0⟩, ⟨1, [1], 1⟩, ⟨3, [3], 3⟩, ⟨4, [4], 4⟩]).1 = .ok () ∧
    (parallelFinish (fun _ => "x") none
        [⟨0, [0], 0⟩, ⟨1, [1], 1⟩, ⟨3, [3], 3⟩, ⟨4, [4], 4⟩]).2.dest = [0, 1, 3, 4] :=
  ⟨rfl, rfl, rfl, rfl⟩

/-- C3 (code bug).  In download_single_thread every failure inside the
attempt block exits the whole function at once (the block is a plain
block, so the question-mark operators and the explicit return target the
function), hence with max_retries = 3 a transport error of the first
attempt is returned directly, a hash mismatch is returned directly, the
loop is never re-entered, and MaxRetriesExceeded is only produced when
max_retries = 0 makes the loop body run zero times. -/
theorem claim3_no_retry :
    download_single_thread (fun _ => .error .http) "http://e" 3 = .error .http ∧
    download_single_thread
        (fun _ => .error (.hashing (.hashNotMatch ⟨"e"⟩ "a"))) "http://e" 3
      = .error (.hashing (.hashNotMatch ⟨"e"⟩ "a")) ∧
    download_single_thread (fun _ => .error .http) "http://e" 0
      = .error (.maxRetriesExceeded "http://e" 0) :=
  ⟨rfl, rfl, rfl⟩

/-- C4 (code bug).  The fetcher loop iterates over 1..max_retries, which
is right-exclusive: with max_retries = 1 no attempt at all is made even
when an attempt would succeed, with max_retries = 3 only two attempts are
made, and with max_retries = 2 a single successful attempt happens. -/
theorem claim4_attempt_count :
    chunkFetch (fun _ => true) 1 = (0, false) ∧
    chunkFetch (fun _ => false) 3 = (2, false) ∧
    chunkFetch (fun _ => true) 2 = (1, true) :=
  ⟨rfl, rfl, rfl⟩

/-- C5, counterexample.  With total_size 100000 and concurrency 4 the
plan does not have 4 chunks: the loop emits a fifth, degenerate range. -/
theorem claim5_counterexample :
    (plan 100000 4).map List.length = .ok 5 :=
  rfl

/-- C5 (amended).  With total_size 100000 and concurrency 4 the plan has
five ranges: four ranges of 25000 bytes each (closed-inclusive, as the
fetchers request them) followed by the degenerate range (100000, 100000)
that the end clamp produces; and when all fetches succeed the chunks are
written into the destination in index order 0, 1, 2, 3, 4 regardless of
the order in which the completions arrived. -/
theorem claim5_plan_100000_4 :
    plan 100000 4 =
      .ok [(0, 24999), (25000, 49999), (50000, 74999), (75000, 99999), (100000, 100000)] ∧
    (∀ r ∈ ([(0, 24999), (25000, 49999), (50000, 74999), (75000, 99999)] :
        List (Nat × Nat)), r.2 + 1 - r.1 = 25000) ∧
    writtenIndices (joinChunks true ⟨[], [], []⟩
        (sortCompleted [⟨3, [3], 3⟩, ⟨0, [0], 0⟩, ⟨4, [4], 4⟩, ⟨1, [1], 1⟩, ⟨2, [2], 2⟩]))
      = [0, 1, 2, 3, 4] :=
  ⟨rfl, by decide, rfl⟩

/-- C10.  The chunk-size arithmetic of download_parallelly is unguarded
on inputs that reach the parallel path: with total_size 5121 and
concurrency 0 the division total_size / concurrency divides by zero, and
with total_size 6000 and concurrency 20000 the single halving still
leaves the effective concurrency 10000 above total_size, the chunk size
is 0, and (counter + 1) * single_chunk_max_size - 1 underflows usize; the
function panics instead of returning an error. -/
theorem claim10_plan_panics :
    download_parallelly_dispatch (some 5121) 0 = .error .divByZero ∧
    effectiveConcurrency 6000 20000 = 10000 ∧
    download_parallelly_dispatch (some 6000) 20000 = .error .usizeUnderflow :=
  ⟨rfl, rfl, rfl⟩


lemma joinChunks_eq (hh : Bool) (st : JoinState) (tasks : List CompletedTask) :
    joinChunks hh st tasks =
      ⟨st.dest ++ (tasks.map CompletedTask.bytes).flatten,
       st.hashed ++ (if hh then (tasks.map CompletedTask.bytes).flatten else []),
       st.events ++ tasks.flatMap
         (fun tk => [.write tk.chunk_num tk.bytes, .removeFile (.temp tk.temp_path)])⟩ := by
  induction tasks generalizing st with
  | nil => cases st; cases hh <;> simp [joinChunks]
  | cons tk rest ih =>
      cases st
      cases hh <;> simp [joinChunks, ih, List.append_assoc]

theorem claim6_hash_mismatch (digestFn : List Nat → String) (h : Hash)
    (completions : List CompletedTask)
    (hne : digestFn ((joinChunks true ⟨[], [], []⟩ (sortCompleted completions)).hashed) ≠
      h.value) :
    (parallelFinish digestFn (some h) completions).1 =
      .error (.hashing (.hashNotMatch h
        (digestFn ((joinChunks true ⟨[], [], []⟩ (sortCompleted completions)).hashed)))) ∧
    (parallelFinish digestFn (some h) completions).2.dest =
      (joinChunks true ⟨[], [], []⟩ (sortCompleted completions)).dest ∧
    JoinEvent.removeFile .dest ∉ (parallelFinish digestFn (some h) completions).2.events := by
  simp only [parallelFinish, verifyHash, Option.isSome]
  rw [if_pos hne]
  refine ⟨rfl, rfl, ?_⟩
  rw [joinChunks_eq]
  simp only [List.nil_append, List.mem_flatMap]
  rintro ⟨tk, -, hmem⟩
  simp at hmem

theorem claim6_hash_mismatch_witness :
    ((fun _ => "aa") ((joinChunks true ⟨[], [], []⟩
        (sortCompleted [⟨0, [7], 0⟩])).hashed) ≠ Hash.value ⟨"deadbeef"⟩) ∧
    ((parallelFinish (fun _ => "aa") (some ⟨"deadbeef"⟩) [⟨0, [7], 0⟩]).1 =
      .error (.hashing (.hashNotMatch ⟨"deadbeef"⟩
        ((fun _ => "aa") ((joinChunks true ⟨[], [], []⟩
          (sortCompleted [⟨0, [7], 0⟩])).hashed)))) ∧
    (parallelFinish (fun _ => "aa") (some ⟨"deadbeef"⟩) [⟨0, [7], 0⟩]).2.dest =
      (joinChunks true ⟨[], [], []⟩ (sortCompleted [⟨0, [7], 0⟩])).dest ∧
    JoinEvent.removeFile .dest ∉
      (parallelFinish (fun _ => "aa") (some ⟨"deadbeef"⟩) [⟨0, [7], 0⟩]).2.events) :=
  ⟨by decide, claim6_hash_mismatch (fun _ => "aa") ⟨"deadbeef"⟩ [⟨0, [7], 0⟩] (by decide)⟩

theorem claim7_reassembly_order (completions : List CompletedTask)
    (hnd : (completions.map CompletedTask.chunk_num).Nodup) :
    List.Perm (sortCompleted completions) completions ∧
    List.Sorted (fun a b => a < b) ((sortCompleted completions).map CompletedTask.chunk_num) ∧
    (joinChunks true ⟨[], [], []⟩ (sortCompleted completions)).events =
      (sortCompleted completions).flatMap
        (fun tk => [.write tk.chunk_num tk.bytes, .removeFile (.temp tk.temp_path)]) ∧
    (joinChunks true ⟨[], [], []⟩ (sortCompleted completions)).hashed =
      ((sortCompleted completions).map CompletedTask.bytes).flatten ∧
    (joinChunks true ⟨[], [], []⟩ (sortCompleted completions)).dest =
      ((sortCompleted completions).map CompletedTask.bytes).flatten := by
  have hperm : List.Perm (sortCompleted completions) completions :=
    List.perm_insertionSort taskLe completions
  have hsorted : List.Sorted taskLe (sortCompleted completions) :=
    List.sorted_insertionSort taskLe completions
  have hle : List.Sorted (fun a b => a ≤ b)
      ((sortCompleted completions).map CompletedTask.chunk_num) :=
    List.pairwise_map.mpr hsorted
  have hnd2 : ((sortCompleted completions).map CompletedTask.chunk_num).Nodup :=
    ((hperm.map CompletedTask.chunk_num).nodup_iff).mpr hnd
  refine ⟨hperm, hle.lt_of_le hnd2, ?_, ?_, ?_⟩ <;>
    · rw [joinChunks_eq]; simp

theorem claim7_reassembly_order_witness :
    List.Perm (sortCompleted [⟨2, [2], 2⟩, ⟨0, [0], 0⟩, ⟨1, [1], 1⟩])
      [⟨2, [2], 2⟩, ⟨0, [0], 0⟩, ⟨1, [1], 1⟩] ∧
    List.Sorted (fun a b => a < b)
      ((sortCompleted [⟨2, [2], 2⟩, ⟨0, [0], 0⟩, ⟨1, [1], 1⟩]).map CompletedTask.chunk_num) ∧
    (joinChunks true ⟨[], [], []⟩ (sortCompleted [⟨2, [2], 2⟩, ⟨0, [0], 0⟩, ⟨1, [1], 1⟩])).events =
      (sortCompleted [⟨2, [2], 2⟩, ⟨0, [0], 0⟩, ⟨1, [1], 1⟩]).flatMap
        (fun tk => [.write tk.chunk_num tk.bytes, .removeFile (.temp tk.temp_path)]) ∧
    (joinChunks true ⟨[], [], []⟩ (sortCompleted [⟨2, [2], 2⟩, ⟨0, [0], 0⟩, ⟨1, [1], 1⟩])).hashed =
      ((sortCompleted [⟨2, [2], 2⟩, ⟨0, [0], 0⟩, ⟨1, [1], 1⟩]).map CompletedTask.bytes).flatten ∧
    (joinChunks true ⟨[], [], []⟩ (sortCompleted [⟨2, [2], 2⟩, ⟨0, [0], 0⟩, ⟨1, [1], 1⟩])).dest =
      ((sortCompleted [⟨2, [2], 2⟩, ⟨0, [0], 0⟩, ⟨1, [1], 1⟩]).map CompletedTask.bytes).flatten :=
  claim7_reassembly_order [⟨2, [2], 2⟩, ⟨0, [0], 0⟩, ⟨1, [1], 1⟩] (by decide)

theorem claim8_dispatch :
    (∀ (total_size : Option Nat) (concurrency : Nat),
        (total_size = none ∨ ∃ n, total_size = some n ∧ n ≤ 5120) →
        download_parallelly_dispatch total_size concurrency = .ok .singleThread ∧
        ∀ p, download_parallelly_dispatch total_size concurrency = .ok p →
          spawnedFetchTasks p ≤ 1) ∧
    (∀ (total_size : Option Nat) (concurrency : Nat) (ranges : List (Nat × Nat)),
        download_parallelly_dispatch total_size concurrency = .ok (.parallel ranges) →
        ∃ n, total_size = some n ∧ 5120 < n) := by
  constructor
  · rintro ts c (rfl | ⟨n, rfl, hn⟩)
    · refine ⟨rfl, ?_⟩
      intro p hp
      simp only [download_parallelly_dispatch] at hp
      have := Except.ok.inj hp
      subst this
      exact Nat.le_of_lt Nat.one_pos
    · have hd : download_parallelly_dispatch (some n) c = .ok .singleThread := by
        simp [download_parallelly_dispatch, hn]
      refine ⟨hd, ?_⟩
      intro p hp
      rw [hd] at hp
      have := Except.ok.inj hp
      subst this
      exact Nat.le_of_lt Nat.one_pos
  · intro ts c ranges h
    match ts with
    | none =>
        simp only [download_parallelly_dispatch] at h
        exact absurd (Except.ok.inj h) (by simp)
    | some n =>
        by_cases hn : n ≤ 5120
        · simp only [download_parallelly_dispatch, if_pos hn] at h
          exact absurd (Except.ok.inj h) (by simp)
        · exact ⟨n, rfl, by omega⟩

theorem claim8_dispatch_witness :
    download_parallelly_dispatch (some 4096) 8 = .ok .singleThread ∧
    (∀ p, download_parallelly_dispatch (some 4096) 8 = .ok p → spawnedFetchTasks p ≤ 1) :=
  claim8_dispatch.1 (some 4096) 8 (Or.inr ⟨4096, rfl, by decide⟩)

end Celestial
